import Mathlib

/-!
Verification of the Roman Numeral Converter service.

The embedding models the code in the backend server file:
* `romanMap` — the ordered value/numeral table;
* `runEntry` — the inner `while (num >= value)` loop of `toRoman`
  (fuel-indexed, fuel is always supplied large enough);
* `toRoman` — the greedy conversion function;
* `parseIntTen` — JavaScript `parseInt(query, 10)` semantics;
* `handleRomannumeral` — the `/romannumeral` request handler, instrumented
  with the number of `toRoman` invocations.
-/

namespace RomanConv

/-- The Roman numeral mapping from the server source: value/numeral pairs
ordered from highest to lowest value. -/
def romanMap : List (Nat × String) :=
  [(1000, "M"), (900, "CM"), (500, "D"), (400, "CD"), (100, "C"),
   (90, "XC"), (50, "L"), (40, "XL"), (10, "X"), (9, "IX"),
   (5, "V"), (4, "IV"), (1, "I")]

/-- The inner loop of `toRoman`:
`while (num >= value) { result += numeral; num -= value; }`.
The first argument is fuel making the recursion structural; every table
value is positive, so fuel `num + 1` never runs out. -/
def runEntry (value : Nat) (numeral : String) :
    Nat → String → Nat → String × Nat
  | 0, result, num => (result, num)
  | fuel + 1, result, num =>
    if value ≤ num then
      runEntry value numeral fuel (result ++ numeral) (num - value)
    else
      (result, num)

/-- The whole body of `toRoman`: fold the table, threading the pair
`(result, num)` through the inner loop of each entry. -/
def toRomanState (num : Nat) : String × Nat :=
  romanMap.foldl
    (fun acc entry => runEntry entry.1 entry.2 (acc.2 + 1) acc.1 acc.2)
    ("", num)

/-- `toRoman` from the server source: the accumulated result string. -/
def toRoman (num : Nat) : String :=
  (toRomanState num).1

/-- Count of iterations of the inner loop for a single table entry. -/
def runEntryCount (value : Nat) : Nat → Nat → Nat → Nat × Nat
  | 0, count, num => (count, num)
  | fuel + 1, count, num =>
    if value ≤ num then
      runEntryCount value fuel (count + 1) (num - value)
    else
      (count, num)

/-- Per-entry iteration counts of `toRoman` on input `num`: how many times
the numeral of each table entry is appended. -/
def toRomanCounts (num : Nat) : List Nat :=
  (romanMap.foldl
    (fun (acc : List Nat × Nat) entry =>
      let r := runEntryCount entry.1 (acc.2 + 1) 0 acc.2
      (acc.1 ++ [r.1], r.2))
    ([], num)).1

/-- Whitespace characters skipped by JavaScript `parseInt`: the ECMAScript
WhiteSpace set (TAB, VT, FF, SP, NBSP, ZWNBSP and the Unicode
space-separator category) plus the LineTerminator set (LF, CR, LS, PS). -/
def isJsSpace (c : Char) : Bool :=
  c == ' ' || c == '\t' || c == '\n' || c == '\x0b' || c == '\x0c' ||
  c == '\r' || c.toNat == 0x00A0 || c.toNat == 0xFEFF || c.toNat == 0x1680 ||
  (decide (0x2000 ≤ c.toNat) && decide (c.toNat ≤ 0x200A)) ||
  c.toNat == 0x2028 || c.toNat == 0x2029 || c.toNat == 0x202F ||
  c.toNat == 0x205F || c.toNat == 0x3000

/-- Decimal digit test. -/
def isDigitTen (c : Char) : Bool :=
  decide ('0' ≤ c) && decide (c ≤ '9')

/-- JavaScript `parseInt(s, 10)`: skip leading whitespace, read an optional
sign, then the maximal prefix of decimal digits; `none` models `NaN`. -/
def parseIntTen (s : String) : Option Int :=
  let cs := s.data.dropWhile isJsSpace
  let signed : Int × List Char :=
    match cs with
    | '-' :: rest => (-1, rest)
    | '+' :: rest => (1, rest)
    | _ => (1, cs)
  let ds := signed.2.takeWhile isDigitTen
  if ds.isEmpty then none
  else some (signed.1 * (ds.foldl (fun a c => a * 10 + (c.toNat - 48)) 0 : Nat))

/-- The JSON bodies the `/romannumeral` handler can produce. -/
inductive Body where
  | queryRequired
  | invalidFormat
  | outOfRange
  | success (input output : String)
  | conversionError
deriving DecidableEq

/-- An HTTP response: status code and JSON body. -/
structure Resp where
  status : Nat
  body : Body
deriving DecidableEq

/-- The `/romannumeral` handler from the server source, instrumented with
the number of `toRoman` invocations. In order: the falsy-query check
(`!query`, true exactly for the empty string), the `isNaN` check after
`parseInt(query, 10)`, the range check `num < 1 || num > 3999`, and the
success response `{ input: query, output: toRoman(num) }`. The `catch`
branch would produce `⟨500, .conversionError⟩`. -/
def handleRomannumeral (query : String) : Resp × Nat :=
  if query = "" then (⟨400, Body.queryRequired⟩, 0)
  else
    match parseIntTen query with
    | none => (⟨400, Body.invalidFormat⟩, 0)
    | some num =>
      if num < 1 ∨ 3999 < num then (⟨400, Body.outOfRange⟩, 0)
      else (⟨200, Body.success query (toRoman num.toNat)⟩, 1)

/-- The thousands position of a Roman numeral, per the standard grammar. -/
def thousandsPart : Nat → String
  | 0 => "" | 1 => "M" | 2 => "MM" | _ => "MMM"

/-- The hundreds position of a Roman numeral, per the standard grammar. -/
def hundredsPart : Nat → String
  | 0 => "" | 1 => "C" | 2 => "CC" | 3 => "CCC" | 4 => "CD"
  | 5 => "D" | 6 => "DC" | 7 => "DCC" | 8 => "DCCC" | _ => "CM"

/-- The tens position of a Roman numeral, per the standard grammar. -/
def tensPart : Nat → String
  | 0 => "" | 1 => "X" | 2 => "XX" | 3 => "XXX" | 4 => "XL"
  | 5 => "L" | 6 => "LX" | 7 => "LXX" | 8 => "LXXX" | _ => "XC"

/-- The units position of a Roman numeral, per the standard grammar. -/
def unitsPart : Nat → String
  | 0 => "" | 1 => "I" | 2 => "II" | 3 => "III" | 4 => "IV"
  | 5 => "V" | 6 => "VI" | 7 => "VII" | 8 => "VIII" | _ => "IX"

/-- The positional normal form of the Roman numeral for `n`. -/
def digitForm (n : Nat) : String :=
  thousandsPart (n / 1000) ++ hundredsPart (n % 1000 / 100) ++
    tensPart (n % 100 / 10) ++ unitsPart (n % 10)

/-- A string is a valid Roman numeral (for the range 1–3999) when it is a
nonempty concatenation of valid thousands, hundreds, tens and units parts. -/
def validRoman (s : String) : Prop :=
  ∃ t h te u, t ≤ 3 ∧ h ≤ 9 ∧ te ≤ 9 ∧ u ≤ 9 ∧ 0 < t + h + te + u ∧
    s = thousandsPart t ++ hundredsPart h ++ tensPart te ++ unitsPart u

/-- Value of a single Roman symbol, per the standard decoding rules. -/
def charVal (c : Char) : Int :=
  if c = 'I' then 1 else if c = 'V' then 5 else if c = 'X' then 10
  else if c = 'L' then 50 else if c = 'C' then 100 else if c = 'D' then 500
  else if c = 'M' then 1000 else 0

/-- Standard Roman-numeral decoding over a character list: sum the symbol
values, subtracting the value of a symbol when it precedes a larger one. -/
def decodeAux : List Char → Int
  | [] => 0
  | [c] => charVal c
  | c₁ :: c₂ :: rest =>
    (if charVal c₁ < charVal c₂ then -charVal c₁ else charVal c₁) +
      decodeAux (c₂ :: rest)

/-- Standard Roman-numeral decoding of a string. -/
def romanDecode (s : String) : Int :=
  decodeAux s.data

/-- `k` copies of the string `s`, concatenated. -/
def joinRep : Nat → String → String
  | 0, _ => ""
  | k + 1, s => s ++ joinRep k s

/-- The seven Roman symbols. -/
def romanChars : List Char := ['I', 'V', 'X', 'L', 'C', 'D', 'M']

/-- The inner loop is greedy subtraction: with enough fuel it appends
`num / value` copies of the numeral and leaves remainder `num % value`. -/
lemma runEntry_spec (value : Nat) (numeral : String) (hv : 0 < value) :
    ∀ fuel num result, num ≤ fuel →
      runEntry value numeral fuel result num =
        (result ++ joinRep (num / value) numeral, num % value) := by
  intro fuel
  induction fuel with
  | zero =>
    intro num result hle
    have hnum : num = 0 := Nat.le_zero.mp hle
    subst hnum
    simp only [runEntry, Nat.zero_div, Nat.zero_mod, joinRep, String.append_empty]
  | succ fuel ih =>
    intro num result hle
    simp only [runEntry]
    by_cases hc : value ≤ num
    · rw [if_pos hc, ih (num - value) (result ++ numeral) (by omega)]
      have hdiv : num / value = (num - value) / value + 1 :=
        Nat.div_eq_sub_div hv hc
      have hmod : num % value = (num - value) % value := Nat.mod_eq_sub_mod hc
      rw [hdiv, ← hmod]
      simp only [joinRep]
      rw [← String.append_assoc]
    · rw [if_neg hc]
      have h1 : num / value = 0 := Nat.div_eq_of_lt (Nat.lt_of_not_le hc)
      have h2 : num % value = num := Nat.mod_eq_of_lt (Nat.lt_of_not_le hc)
      rw [h1, h2]
      simp only [joinRep, String.append_empty]

/-- `runEntry` with the fuel the fold actually supplies. -/
lemma runEntry_succ (value : Nat) (numeral : String) (num result : _)
    (hv : 0 < value) :
    runEntry value numeral (num + 1) result num =
      (result ++ joinRep (num / value) numeral, num % value) :=
  runEntry_spec value numeral hv (num + 1) num result (Nat.le_succ num)

/-- The counting loop performs exactly `num / value` iterations. -/
lemma runEntryCount_spec (value : Nat) (hv : 0 < value) :
    ∀ fuel num count, num ≤ fuel →
      runEntryCount value fuel count num =
        (count + num / value, num % value) := by
  intro fuel
  induction fuel with
  | zero =>
    intro num count hle
    have hnum : num = 0 := Nat.le_zero.mp hle
    subst hnum
    simp only [runEntryCount, Nat.zero_div, Nat.zero_mod, Nat.add_zero]
  | succ fuel ih =>
    intro num count hle
    simp only [runEntryCount]
    by_cases hc : value ≤ num
    · rw [if_pos hc, ih (num - value) (count + 1) (by omega)]
      have hdiv : num / value = (num - value) / value + 1 :=
        Nat.div_eq_sub_div hv hc
      have hmod : num % value = (num - value) % value := Nat.mod_eq_sub_mod hc
      rw [hdiv, ← hmod]
      have harr : count + 1 + (num - value) / value =
          count + ((num - value) / value + 1) := by omega
      rw [harr]
    · rw [if_neg hc]
      have h1 : num / value = 0 := Nat.div_eq_of_lt (Nat.lt_of_not_le hc)
      have h2 : num % value = num := Nat.mod_eq_of_lt (Nat.lt_of_not_le hc)
      rw [h1, h2, Nat.add_zero]

/-- `runEntryCount` with the fuel the fold actually supplies. -/
lemma runEntryCount_succ (value num count : Nat) (hv : 0 < value) :
    runEntryCount value (num + 1) count num =
      (count + num / value, num % value) :=
  runEntryCount_spec value hv (num + 1) num count (Nat.le_succ num)

/-- The remaining quantity threaded through the table fold ends at zero. -/
lemma toRomanState_snd (num : Nat) : (toRomanState num).2 = 0 := by
  simp [toRomanState, romanMap, runEntry_succ, Nat.mod_one]

/-- The per-entry iteration counts, in closed form. -/
lemma toRomanCounts_eq (num : Nat) :
    toRomanCounts num =
      [num / 1000, num % 1000 / 900, num % 1000 % 900 / 500,
       num % 1000 % 900 % 500 / 400, num % 1000 % 900 % 500 % 400 / 100,
       num % 1000 % 900 % 500 % 400 % 100 / 90,
       num % 1000 % 900 % 500 % 400 % 100 % 90 / 50,
       num % 1000 % 900 % 500 % 400 % 100 % 90 % 50 / 40,
       num % 1000 % 900 % 500 % 400 % 100 % 90 % 50 % 40 / 10,
       num % 1000 % 900 % 500 % 400 % 100 % 90 % 50 % 40 % 10 / 9,
       num % 1000 % 900 % 500 % 400 % 100 % 90 % 50 % 40 % 10 % 9 / 5,
       num % 1000 % 900 % 500 % 400 % 100 % 90 % 50 % 40 % 10 % 9 % 5 / 4,
       num % 1000 % 900 % 500 % 400 % 100 % 90 % 50 % 40 % 10 % 9 % 5 % 4] := by
  simp [toRomanCounts, romanMap, runEntryCount_succ, Nat.div_one]

/-- Length bound for the thousands part. -/
lemma thousandsPart_length (t : Nat) : (thousandsPart t).length ≤ 3 := by
  match t with
  | 0 => decide
  | 1 => decide
  | 2 => decide
  | t + 3 => exact show ("MMM" : String).length ≤ 3 by decide

/-- Length bound for the hundreds part. -/
lemma hundredsPart_length (h : Nat) : (hundredsPart h).length ≤ 4 := by
  match h with
  | 0 => decide
  | 1 => decide
  | 2 => decide
  | 3 => decide
  | 4 => decide
  | 5 => decide
  | 6 => decide
  | 7 => decide
  | 8 => decide
  | h + 9 => exact show ("CM" : String).length ≤ 4 by decide

/-- Length bound for the tens part. -/
lemma tensPart_length (te : Nat) : (tensPart te).length ≤ 4 := by
  match te with
  | 0 => decide
  | 1 => decide
  | 2 => decide
  | 3 => decide
  | 4 => decide
  | 5 => decide
  | 6 => decide
  | 7 => decide
  | 8 => decide
  | te + 9 => exact show ("XC" : String).length ≤ 4 by decide

/-- Length bound for the units part. -/
lemma unitsPart_length (u : Nat) : (unitsPart u).length ≤ 4 := by
  match u with
  | 0 => decide
  | 1 => decide
  | 2 => decide
  | 3 => decide
  | 4 => decide
  | 5 => decide
  | 6 => decide
  | 7 => decide
  | 8 => decide
  | u + 9 => exact show ("IX" : String).length ≤ 4 by decide

/-- A nonzero thousands digit makes a nonempty part. -/
lemma thousandsPart_pos (t : Nat) (ht : t ≠ 0) : 0 < (thousandsPart t).length := by
  match t with
  | 0 => exact absurd rfl ht
  | 1 => decide
  | 2 => decide
  | t + 3 => exact show 0 < ("MMM" : String).length by decide

/-- A nonzero hundreds digit makes a nonempty part. -/
lemma hundredsPart_pos (h : Nat) (hh : h ≠ 0) : 0 < (hundredsPart h).length := by
  match h with
  | 0 => exact absurd rfl hh
  | 1 => decide
  | 2 => decide
  | 3 => decide
  | 4 => decide
  | 5 => decide
  | 6 => decide
  | 7 => decide
  | 8 => decide
  | h + 9 => exact show 0 < ("CM" : String).length by decide

/-- A nonzero tens digit makes a nonempty part. -/
lemma tensPart_pos (te : Nat) (hte : te ≠ 0) : 0 < (tensPart te).length := by
  match te with
  | 0 => exact absurd rfl hte
  | 1 => decide
  | 2 => decide
  | 3 => decide
  | 4 => decide
  | 5 => decide
  | 6 => decide
  | 7 => decide
  | 8 => decide
  | te + 9 => exact show 0 < ("XC" : String).length by decide

/-- A nonzero units digit makes a nonempty part. -/
lemma unitsPart_pos (u : Nat) (hu : u ≠ 0) : 0 < (unitsPart u).length := by
  match u with
  | 0 => exact absurd rfl hu
  | 1 => decide
  | 2 => decide
  | 3 => decide
  | 4 => decide
  | 5 => decide
  | 6 => decide
  | 7 => decide
  | 8 => decide
  | u + 9 => exact show 0 < ("IX" : String).length by decide

/-- The thousands part only uses Roman symbols. -/
lemma thousandsPart_chars (t : Nat) :
    ∀ c ∈ (thousandsPart t).data, c ∈ romanChars := by
  match t with
  | 0 => decide
  | 1 => decide
  | 2 => decide
  | t + 3 => exact show ∀ c ∈ ("MMM" : String).data, c ∈ romanChars by decide

/-- The hundreds part only uses Roman symbols. -/
lemma hundredsPart_chars (h : Nat) :
    ∀ c ∈ (hundredsPart h).data, c ∈ romanChars := by
  match h with
  | 0 => decide
  | 1 => decide
  | 2 => decide
  | 3 => decide
  | 4 => decide
  | 5 => decide
  | 6 => decide
  | 7 => decide
  | 8 => decide
  | h + 9 => exact show ∀ c ∈ ("CM" : String).data, c ∈ romanChars by decide

/-- The tens part only uses Roman symbols. -/
lemma tensPart_chars (te : Nat) :
    ∀ c ∈ (tensPart te).data, c ∈ romanChars := by
  match te with
  | 0 => decide
  | 1 => decide
  | 2 => decide
  | 3 => decide
  | 4 => decide
  | 5 => decide
  | 6 => decide
  | 7 => decide
  | 8 => decide
  | te + 9 => exact show ∀ c ∈ ("XC" : String).data, c ∈ romanChars by decide

/-- The units part only uses Roman symbols. -/
lemma unitsPart_chars (u : Nat) :
    ∀ c ∈ (unitsPart u).data, c ∈ romanChars := by
  match u with
  | 0 => decide
  | 1 => decide
  | 2 => decide
  | 3 => decide
  | 4 => decide
  | 5 => decide
  | 6 => decide
  | 7 => decide
  | 8 => decide
  | u + 9 => exact show ∀ c ∈ ("IX" : String).data, c ∈ romanChars by decide

set_option maxRecDepth 10000 in
set_option maxHeartbeats 2000000 in
/-- Enumeration chunk: conversion agrees with the positional normal form. -/
lemma toRoman_digitForm_aux0 :
    ∀ n, n < 500 → toRoman n = digitForm n := by decide

set_option maxRecDepth 10000 in
set_option maxHeartbeats 2000000 in
/-- Enumeration chunk: conversion agrees with the positional normal form. -/
lemma toRoman_digitForm_aux1 :
    ∀ n, n < 500 → toRoman (500 + n) = digitForm (500 + n) := by decide

set_option maxRecDepth 10000 in
set_option maxHeartbeats 2000000 in
/-- Enumeration chunk: conversion agrees with the positional normal form. -/
lemma toRoman_digitForm_aux2 :
    ∀ n, n < 500 → toRoman (1000 + n) = digitForm (1000 + n) := by decide

set_option maxRecDepth 10000 in
set_option maxHeartbeats 2000000 in
/-- Enumeration chunk: conversion agrees with the positional normal form. -/
lemma toRoman_digitForm_aux3 :
    ∀ n, n < 500 → toRoman (1500 + n) = digitForm (1500 + n) := by decide

set_option maxRecDepth 10000 in
set_option maxHeartbeats 2000000 in
/-- Enumeration chunk: conversion agrees with the positional normal form. -/
lemma toRoman_digitForm_aux4 :
    ∀ n, n < 500 → toRoman (2000 + n) = digitForm (2000 + n) := by decide

set_option maxRecDepth 10000 in
set_option maxHeartbeats 2000000 in
/-- Enumeration chunk: conversion agrees with the positional normal form. -/
lemma toRoman_digitForm_aux5 :
    ∀ n, n < 500 → toRoman (2500 + n) = digitForm (2500 + n) := by decide

set_option maxRecDepth 10000 in
set_option maxHeartbeats 2000000 in
/-- Enumeration chunk: conversion agrees with the positional normal form. -/
lemma toRoman_digitForm_aux6 :
    ∀ n, n < 500 → toRoman (3000 + n) = digitForm (3000 + n) := by decide

set_option maxRecDepth 10000 in
set_option maxHeartbeats 2000000 in
/-- Enumeration chunk: conversion agrees with the positional normal form. -/
lemma toRoman_digitForm_aux7 :
    ∀ n, n < 500 → toRoman (3500 + n) = digitForm (3500 + n) := by decide

/-- On every input below 4000, the greedy conversion agrees with the
positional normal form built from the four decimal digits. -/
lemma toRoman_digitForm (n : Nat) (h : n < 4000) :
    toRoman n = digitForm n := by
  have hd : n < 500 ∨ (500 ≤ n ∧ n < 1000) ∨ (1000 ≤ n ∧ n < 1500) ∨
      (1500 ≤ n ∧ n < 2000) ∨ (2000 ≤ n ∧ n < 2500) ∨
      (2500 ≤ n ∧ n < 3000) ∨ (3000 ≤ n ∧ n < 3500) ∨
      (3500 ≤ n ∧ n < 4000) := by omega
  rcases hd with h0 | h0 | h0 | h0 | h0 | h0 | h0 | h0
  · exact toRoman_digitForm_aux0 n h0
  · have hx := toRoman_digitForm_aux1 (n - 500) (by omega)
    rwa [show 500 + (n - 500) = n by omega] at hx
  · have hx := toRoman_digitForm_aux2 (n - 1000) (by omega)
    rwa [show 1000 + (n - 1000) = n by omega] at hx
  · have hx := toRoman_digitForm_aux3 (n - 1500) (by omega)
    rwa [show 1500 + (n - 1500) = n by omega] at hx
  · have hx := toRoman_digitForm_aux4 (n - 2000) (by omega)
    rwa [show 2000 + (n - 2000) = n by omega] at hx
  · have hx := toRoman_digitForm_aux5 (n - 2500) (by omega)
    rwa [show 2500 + (n - 2500) = n by omega] at hx
  · have hx := toRoman_digitForm_aux6 (n - 3000) (by omega)
    rwa [show 3000 + (n - 3000) = n by omega] at hx
  · have hx := toRoman_digitForm_aux7 (n - 3500) (by omega)
    rwa [show 3500 + (n - 3500) = n by omega] at hx

set_option maxRecDepth 10000 in
set_option maxHeartbeats 2000000 in
/-- Decoding a positional normal form yields its positional value. -/
lemma decode_digitParts :
    ∀ t < 4, ∀ h < 10, ∀ te < 10, ∀ u < 10,
      romanDecode
          (thousandsPart t ++ hundredsPart h ++ tensPart te ++ unitsPart u) =
        ((1000 * t + 100 * h + 10 * te + u : Nat) : Int) := by decide

/-- Round trip: decoding the conversion output recovers the input. -/
lemma roundtrip_aux (n : Nat) (h1 : 1 ≤ n) (h2 : n ≤ 3999) :
    romanDecode (toRoman n) = (n : Int) := by
  rw [toRoman_digitForm n (by omega)]
  simp only [digitForm]
  rw [decode_digitParts (n / 1000) (by omega) (n % 1000 / 100) (by omega)
    (n % 100 / 10) (by omega) (n % 10) (by omega)]
  have he : 1000 * (n / 1000) + 100 * (n % 1000 / 100) + 10 * (n % 100 / 10) +
      n % 10 = n := by omega
  rw [he]

/-- Injectivity of the conversion on its validated domain. -/
lemma toRoman_inj_aux (n1 n2 : Nat) (h11 : 1 ≤ n1) (h12 : n1 ≤ 3999)
    (h21 : 1 ≤ n2) (h22 : n2 ≤ 3999) (heq : toRoman n1 = toRoman n2) :
    n1 = n2 := by
  have d1 := roundtrip_aux n1 h11 h12
  have d2 := roundtrip_aux n2 h21 h22
  rw [heq, d2] at d1
  omega

/-- C1, counterexample: invoked with the out-of-range integers 0 and 4000,
the conversion function signals no error at all — it returns the plain
strings "" and "MMMM". -/
theorem toRoman_out_of_range_returns_string :
    toRoman 0 = "" ∧ toRoman 4000 = "MMMM" := by decide

/-- C1, amended: the `OutOfRange` rejection lives in the HTTP handler: every
query parsing to an integer outside [1, 3999] gets the 400 out-of-range
response with no converter invocation, in particular the queries "0" and
"4000"; the conversion function itself signals nothing and returns the
ordinary strings "" and "MMMM" on those inputs. -/
theorem outOfRange_signaled_by_handler :
    (∀ q : String, ∀ num : Int, parseIntTen q = some num →
      (num < 1 ∨ 3999 < num) →
      handleRomannumeral q = (⟨400, Body.outOfRange⟩, 0)) ∧
    handleRomannumeral "0" = (⟨400, Body.outOfRange⟩, 0) ∧
    handleRomannumeral "4000" = (⟨400, Body.outOfRange⟩, 0) ∧
    toRoman 0 = "" ∧ toRoman 4000 = "MMMM" := by
  refine ⟨?_, by decide, by decide, by decide, by decide⟩
  intro q num hp hr
  have hq : q ≠ "" := by
    intro h
    rw [h] at hp
    exact Option.noConfusion ((by decide : parseIntTen "" = none).symm.trans hp)
  simp only [handleRomannumeral, if_neg hq, hp]
  rw [if_pos hr]

/-- C1, witness: the universal handler rejection applied at the query
"4000", which parses to the out-of-range integer 4000. -/
theorem outOfRange_signaled_by_handler_witness :
    handleRomannumeral "4000" = (⟨400, Body.outOfRange⟩, 0) :=
  outOfRange_signaled_by_handler.1 "4000" 4000 (by decide) (by decide)

/-- C2, counterexample: the empty (present but falsy) query parameter fails
to parse as an integer, yet the 400 response of the handler says the query
parameter is required, not that the number format is invalid. -/
theorem empty_query_not_invalid_format :
    parseIntTen "" = none ∧
    handleRomannumeral "" = (⟨400, Body.queryRequired⟩, 0) ∧
    Body.queryRequired ≠ Body.invalidFormat := by decide

/-- C2, amended: for every nonempty textual query parameter, parse failure
yields 400 invalid-number-format with no converter invocation; a parsed
integer outside [1, 3999] yields 400 out-of-range with no converter
invocation; otherwise the handler answers 200 with exactly the original
textual input and the converted numeral, invoking the converter once. -/
theorem romannumeral_handler_contract : ∀ q : String, q ≠ "" →
    (parseIntTen q = none →
      handleRomannumeral q = (⟨400, Body.invalidFormat⟩, 0)) ∧
    (∀ num : Int, parseIntTen q = some num → (num < 1 ∨ 3999 < num) →
      handleRomannumeral q = (⟨400, Body.outOfRange⟩, 0)) ∧
    (∀ num : Int, parseIntTen q = some num → 1 ≤ num → num ≤ 3999 →
      handleRomannumeral q = (⟨200, Body.success q (toRoman num.toNat)⟩, 1)) := by
  intro q hq
  refine ⟨?_, ?_, ?_⟩
  · intro hp
    simp only [handleRomannumeral, if_neg hq, hp]
  · intro num hp hr
    simp only [handleRomannumeral, if_neg hq, hp]
    rw [if_pos hr]
  · intro num hp h1 h2
    simp only [handleRomannumeral, if_neg hq, hp]
    rw [if_neg (by omega)]

/-- C2, witness: the contract evaluated at the concrete query "42". -/
theorem romannumeral_handler_contract_witness :
    handleRomannumeral "42" = (⟨200, Body.success "42" "XLII"⟩, 1) := by
  have h := (romannumeral_handler_contract "42" (by decide)).2.2 42 (by decide)
    (by decide) (by decide)
  rw [h]
  decide

/-- C3: the conversion function takes exactly the boundary values listed in the spec. -/
theorem toRoman_boundary_values :
    toRoman 1 = "I" ∧ toRoman 4 = "IV" ∧ toRoman 9 = "IX" ∧
    toRoman 40 = "XL" ∧ toRoman 90 = "XC" ∧ toRoman 400 = "CD" ∧
    toRoman 900 = "CM" ∧ toRoman 3999 = "MMMCMXCIX" ∧
    toRoman 1000 = "M" ∧ toRoman 42 = "XLII" := by decide

/-- C4, counterexample: at the in-range input 3888 the output is 15
characters long, so the claimed bound of 9 characters is false. -/
theorem toRoman_length_exceeds_nine :
    (toRoman 3888).length = 15 ∧ ¬ (toRoman 3888).length ≤ 9 := by decide

/-- C4, amended: for every integer in [1, 3999] the output length is at
most 15 (attained at 3888), and each table entry contributes at most 3
symbol repetitions. -/
theorem toRoman_length_and_repetition_bound :
    ∀ n, 1 ≤ n → n ≤ 3999 →
      (toRoman n).length ≤ 15 ∧ ∀ c ∈ toRomanCounts n, c ≤ 3 := by
  intro n h1 h2
  constructor
  · rw [toRoman_digitForm n (by omega)]
    simp only [digitForm, String.length_append]
    have l1 := thousandsPart_length (n / 1000)
    have l2 := hundredsPart_length (n % 1000 / 100)
    have l3 := tensPart_length (n % 100 / 10)
    have l4 := unitsPart_length (n % 10)
    omega
  · rw [toRomanCounts_eq]
    intro c hc
    simp only [List.mem_cons, List.not_mem_nil, or_false] at hc
    rcases hc with h | h | h | h | h | h | h | h | h | h | h | h | h <;>
      subst h <;> omega

/-- C4, witness: the amended bound evaluated at 3888. -/
theorem toRoman_length_and_repetition_bound_witness :
    (toRoman 3888).length ≤ 15 ∧ ∀ c ∈ toRomanCounts 3888, c ≤ 3 :=
  toRoman_length_and_repetition_bound 3888 (by decide) (by decide)

/-- C5: for every integer in [1, 3999] the conversion result is a nonempty
string over the seven Roman symbols I, V, X, L, C, D, M. -/
theorem toRoman_charset :
    ∀ n, 1 ≤ n → n ≤ 3999 →
      toRoman n ≠ "" ∧ ∀ c ∈ (toRoman n).data, c ∈ romanChars := by
  intro n h1 h2
  rw [toRoman_digitForm n (by omega)]
  simp only [digitForm]
  constructor
  · intro he
    have hlen := congrArg String.length he
    simp only [String.length_append] at hlen
    have hz : ("" : String).length = 0 := rfl
    rw [hz] at hlen
    have hd : n / 1000 ≠ 0 ∨ n % 1000 / 100 ≠ 0 ∨ n % 100 / 10 ≠ 0 ∨
        n % 10 ≠ 0 := by omega
    rcases hd with h | h | h | h
    · have := thousandsPart_pos _ h
      omega
    · have := hundredsPart_pos _ h
      omega
    · have := tensPart_pos _ h
      omega
    · have := unitsPart_pos _ h
      omega
  · intro c hc
    simp only [String.data_append, List.mem_append] at hc
    rcases hc with ((h | h) | h) | h
    · exact thousandsPart_chars _ c h
    · exact hundredsPart_chars _ c h
    · exact tensPart_chars _ c h
    · exact unitsPart_chars _ c h

/-- C5, witness: the charset property evaluated at 1987. -/
theorem toRoman_charset_witness :
    toRoman 1987 ≠ "" ∧ ∀ c ∈ (toRoman 1987).data, c ∈ romanChars :=
  toRoman_charset 1987 (by decide) (by decide)

/-- C6: the conversion is injective on [1, 3999] and is a bijection onto
the set of valid Roman numerals of that range. -/
theorem toRoman_bijection :
    (∀ n1 n2, 1 ≤ n1 → n1 ≤ 3999 → 1 ≤ n2 → n2 ≤ 3999 →
      toRoman n1 = toRoman n2 → n1 = n2) ∧
    (∀ n, 1 ≤ n → n ≤ 3999 → validRoman (toRoman n)) ∧
    (∀ s, validRoman s → ∃! n, (1 ≤ n ∧ n ≤ 3999) ∧ toRoman n = s) := by
  refine ⟨toRoman_inj_aux, ?_, ?_⟩
  · intro n h1 h2
    refine ⟨n / 1000, n % 1000 / 100, n % 100 / 10, n % 10,
      by omega, by omega, by omega, by omega, by omega, ?_⟩
    rw [toRoman_digitForm n (by omega)]
    rfl
  · intro s hs
    obtain ⟨t, h, te, u, ht, hh, hte, hu, hpos, hseq⟩ := hs
    have hbound1 : 1 ≤ 1000 * t + 100 * h + 10 * te + u := by omega
    have hbound2 : 1000 * t + 100 * h + 10 * te + u ≤ 3999 := by omega
    have hn0 : toRoman (1000 * t + 100 * h + 10 * te + u) = s := by
      rw [toRoman_digitForm _ (by omega)]
      simp only [digitForm]
      have e1 : (1000 * t + 100 * h + 10 * te + u) / 1000 = t := by omega
      have e2 : (1000 * t + 100 * h + 10 * te + u) % 1000 / 100 = h := by omega
      have e3 : (1000 * t + 100 * h + 10 * te + u) % 100 / 10 = te := by omega
      have e4 : (1000 * t + 100 * h + 10 * te + u) % 10 = u := by omega
      rw [e1, e2, e3, e4]
      exact hseq.symm
    exact ⟨1000 * t + 100 * h + 10 * te + u, ⟨⟨hbound1, hbound2⟩, hn0⟩,
      fun y hy => toRoman_inj_aux y _ hy.1.1 hy.1.2 hbound1 hbound2
        (hy.2.trans hn0.symm)⟩

/-- C6, witness: validity of the image evaluated at 42. -/
theorem toRoman_bijection_witness : validRoman (toRoman 42) :=
  toRoman_bijection.2.1 42 (by decide) (by decide)

/-- C7: decoding the conversion output with the standard rules reproduces
the original input. -/
theorem toRoman_roundtrip :
    ∀ n, 1 ≤ n → n ≤ 3999 → romanDecode (toRoman n) = (n : Int) :=
  fun n h1 h2 => roundtrip_aux n h1 h2

/-- C7, witness: the round trip evaluated at 1987. -/
theorem toRoman_roundtrip_witness : romanDecode (toRoman 1987) = (1987 : Int) :=
  toRoman_roundtrip 1987 (by decide) (by decide)

/-- C8: on every validated input the table walk drives the remaining
quantity to zero, so the (total, structurally terminating) conversion
returns. -/
theorem toRoman_terminates :
    ∀ n, 1 ≤ n → n ≤ 3999 → (toRomanState n).2 = 0 :=
  fun n _ _ => toRomanState_snd n

/-- C8, witness: the final remainder evaluated at 3999. -/
theorem toRoman_terminates_witness : (toRomanState 3999).2 = 0 :=
  toRoman_terminates 3999 (by decide) (by decide)

/-- C9: the conversion function performs no range check of its own — at 0
it structurally produces the empty string — and the range rejection belongs to the caller: any parsed out-of-range number gets the 400 response of the handler
with no converter invocation. -/
theorem toRoman_no_range_check :
    toRoman 0 = "" ∧
    ∀ q num, parseIntTen q = some num → (num < 1 ∨ 3999 < num) →
      handleRomannumeral q = (⟨400, Body.outOfRange⟩, 0) := by
  constructor
  · decide
  · intro q num hp hr
    have hq : q ≠ "" := by
      intro h
      rw [h] at hp
      exact Option.noConfusion ((by decide : parseIntTen "" = none).symm.trans hp)
    simp only [handleRomannumeral, if_neg hq, hp]
    rw [if_pos hr]

/-- C9, witness: the caller-side rejection evaluated at the query "0". -/
theorem toRoman_no_range_check_witness :
    toRoman 0 = "" ∧ handleRomannumeral "0" = (⟨400, Body.outOfRange⟩, 0) :=
  ⟨toRoman_no_range_check.1,
    toRoman_no_range_check.2 "0" 0 (by decide) (by decide)⟩

/-- C10: the handler never produces the 500 internal-server-error response:
the converter is a total function on validated inputs, so the catch branch
is unreachable. -/
theorem handler_no_internal_error : ∀ q : String,
    (handleRomannumeral q).1.status ≠ 500 ∧
    (handleRomannumeral q).1.body ≠ Body.conversionError := by
  intro q
  by_cases hq : q = ""
  · subst hq
    exact ⟨by decide, by decide⟩
  · simp only [handleRomannumeral, if_neg hq]
    cases hp : parseIntTen q with
    | none =>
      dsimp only
      exact ⟨by decide, by decide⟩
    | some num =>
      dsimp only
      by_cases hr : num < 1 ∨ 3999 < num
      · rw [if_pos hr]
        exact ⟨by decide, by decide⟩
      · rw [if_neg hr]
        dsimp only
        refine ⟨by decide, ?_⟩
        intro hb
        exact Body.noConfusion hb

/-- C10, witness: the impossibility of the 500 response at the query "abc". -/
theorem handler_no_internal_error_witness :
    (handleRomannumeral "abc").1.status ≠ 500 ∧
    (handleRomannumeral "abc").1.body ≠ Body.conversionError :=
  handler_no_internal_error "abc"

end RomanConv
